import Mathlib

/-!
# Verification of the swoop_server_config media-organization core

A shallow embedding, in Lean 4, of the decision logic of the repository's
media-organization scripts:

* `movie_cleanup.py` — duplicate handling, Radarr renaming, and the
  JSON action-log executor (`execute_actions_file`);
* `downloads_import.py` — filename classification, quality scoring and
  the copy/replace logic of the importer;
* `movie_analyzer.py` — the analyzer's name normalization.

Filesystem state is modelled explicitly: a path is its list of components
(`FPath`), a filesystem is the set of file paths plus the set of directory
paths. Python strings are Lean `String`s; `\s`, `\w` and `\d` character
classes are modelled over ASCII, and the float literal `1.1` in the size
tie-break is modelled as the exact rational 11/10 (the comparison
`new_size > existing_size * 1.1` becomes `10 * newSize > 11 * exSize`).
All definitions are executable.
-/

/-! ## Paths and filesystem state (for `execute_actions_file`) -/

/-- A filesystem path, as its list of components (the Python code passes
paths around as strings and wraps them in `pathlib.Path`; we split on the
separator). -/
abbrev FPath := List String

/-- Split a character list at every occurrence of `sep` (the semantics of
Python `str.split(sep)` for a one-character separator). -/
def splitOnC (sep : Char) : List Char → List (List Char)
  | [] => [[]]
  | c :: r =>
    match splitOnC sep r with
    | [] => if c = sep then [[], []] else [[c]]
    | h :: t => if c = sep then [] :: h :: t else (c :: h) :: t

/-- Turn an action-log path string into its component list. -/
def toFPath (s : String) : FPath := (splitOnC '/' s.data).map String.mk

/-- Rebuild the character form of a path (used because Python sorts the
`folders_to_check` set of path *strings*). -/
def joinC (p : FPath) : List Char := List.intercalate ['/'] (p.map String.data)

/-- Code-point lexicographic comparison of character lists — the order
Python uses to compare strings. -/
def charListLe : List Char → List Char → Bool
  | [], _ => true
  | _ :: _, [] => false
  | a :: as, b :: bs =>
    if a.val < b.val then true
    else if b.val < a.val then false
    else charListLe as bs

/-- `Path(p).parent` for component lists. -/
def parentP (p : FPath) : FPath := p.dropLast

/-- Filesystem state: the set of regular files and the set of directories,
as duplicate-free lists of paths. -/
structure FS where
  files : List FPath
  dirs : List FPath
deriving DecidableEq

/-- A parsed element of the JSON action log, keeping the keys
`execute_actions_file` reads. An absent key is `none`; JSON `""` is the
falsy string (Python `action.get('source') or action.get('path')`). -/
structure ActionObj where
  action : Option String := none
  source : Option String := none
  path : Option String := none
deriving DecidableEq

/-- A per-action result dict appended to `results`. -/
structure ARes where
  action : Option String := none
  source : Option String := none
  status : String
  error : Option String := none
deriving DecidableEq

/-- Python truthiness of an optional string: `None` and `""` are falsy. -/
def truthy : Option String → Option String
  | some s => if s = "" then none else some s
  | none => none

/-- `src = action.get('source') or action.get('path')`, followed by the
`if not src` check: the effective delete source, if any. -/
def effSrc (a : ActionObj) : Option String :=
  match truthy a.source with
  | some s => some s
  | none => truthy a.path

/-- `not any(p.iterdir())`: the directory `p` has no entry (no file and no
directory directly inside it). -/
def noKid (fs : FS) (p : FPath) : Prop :=
  (∀ f ∈ fs.files, parentP f ≠ p) ∧ (∀ d ∈ fs.dirs, parentP d ≠ p)

instance (fs : FS) (p : FPath) : Decidable (noKid fs p) := by
  unfold noKid; infer_instance

/-- The `delete` branch of `execute_actions_file` applied to the state:
if the source is a file, unlink it; if it is a directory, unlink the files
directly inside it, then `rmdir` it, tolerating failure (the `rmdir`
succeeds exactly when nothing is left inside); otherwise do nothing. -/
def deleteAt (fs : FS) (p : FPath) : FS :=
  if p ∈ fs.files then
    { fs with files := fs.files.filter (· ≠ p) }
  else if p ∈ fs.dirs then
    if noKid { fs with files := fs.files.filter (fun f => parentP f ≠ p) } p then
      { files := fs.files.filter (fun f => parentP f ≠ p), dirs := fs.dirs.filter (· ≠ p) }
    else { fs with files := fs.files.filter (fun f => parentP f ≠ p) }
  else fs

/-- Add a parent folder to the `folders_to_check` set. -/
def addIfAbsent (l : List FPath) (p : FPath) : List FPath :=
  if p ∈ l then l else l ++ [p]

/-- One iteration of the action loop of `execute_actions_file`: returns the
results appended for this action, the new filesystem state, and the new
`folders_to_check` accumulator. The `move` and `rename` branches are
`pass` in the source (their bodies are commented out), so they neither
touch the filesystem nor append a result. -/
def execAction (dry : Bool) (fs : FS) (fl : List FPath) (a : ActionObj) :
    List ARes × FS × List FPath :=
  if a.action = some "move" then ([], fs, fl)
  else if a.action = some "delete" then
    match effSrc a with
    | none => ([⟨a.action, none, "error", some "delete action requires source"⟩], fs, fl)
    | some s =>
      let p := toFPath s
      let fs' := if dry then fs else deleteAt fs p
      ([⟨some "delete", some s, "ok", none⟩], fs', addIfAbsent fl (parentP p))
  else if a.action = some "rename" then ([], fs, fl)
  else if a.action = some "keep" ∨ a.action = some "skip" then
    ([⟨a.action, none, "skipped", none⟩], fs, fl)
  else ([⟨a.action, none, "unknown", none⟩], fs, fl)

/-- The action loop of `execute_actions_file`. -/
def runActs (dry : Bool) : List ActionObj → FS → List FPath → List ARes × FS × List FPath
  | [], fs, fl => ([], fs, fl)
  | a :: rest, fs, fl =>
    let st := execAction dry fs fl a
    let st' := runActs dry rest st.2.1 st.2.2
    (st.1 ++ st'.1, st'.2.1, st'.2.2)

/-- Order in which Python iterates `sorted(folders_to_check)`: the string
forms of the paths, sorted lexicographically. -/
def folderLe (a b : FPath) : Prop := charListLe (joinC a) (joinC b) = true

instance : DecidableRel folderLe := fun a b =>
  inferInstanceAs (Decidable (charListLe (joinC a) (joinC b) = true))

/-- One iteration of the trailing empty-folder sweep: remove the folder if
it exists, is a directory and is empty (the removal itself happens only
outside dry-run). -/
def cleanupStep (dry : Bool) (fs : FS) (p : FPath) : FS :=
  if p ∈ fs.dirs ∧ noKid fs p ∧ dry = false then
    { fs with dirs := fs.dirs.filter (· ≠ p) }
  else fs

/-- The trailing `for folder in sorted(folders_to_check)` sweep. -/
def cleanupFolders (dry : Bool) (fl : List FPath) (fs : FS) : FS :=
  (List.insertionSort folderLe fl).foldl (cleanupStep dry) fs

/-- `execute_actions_file`, given the parsed action list: run every action
in order, then sweep the parents touched by deletes. Returns the results
list and the final filesystem. -/
def execActionsList (dry : Bool) (acts : List ActionObj) (fs : FS) : List ARes × FS :=
  let st := runActs dry acts fs []
  (st.1, cleanupFolders dry st.2.2 st.2.1)

/-- The per-action results an action contributes, read off the branches of
`execute_actions_file`; they depend only on the action object itself. -/
def resOf (a : ActionObj) : List ARes :=
  if a.action = some "move" then []
  else if a.action = some "delete" then
    match effSrc a with
    | none => [⟨a.action, none, "error", some "delete action requires source"⟩]
    | some s => [⟨some "delete", some s, "ok", none⟩]
  else if a.action = some "rename" then []
  else if a.action = some "keep" ∨ a.action = some "skip" then
    [⟨a.action, none, "skipped", none⟩]
  else [⟨a.action, none, "unknown", none⟩]

/-- The delete-source paths named by an action list. -/
def srcPaths (acts : List ActionObj) : List FPath :=
  acts.filterMap fun a =>
    if a.action = some "delete" then (effSrc a).map toFPath else none

/-- Well-formedness of a filesystem state: no path is simultaneously a
file and a directory. -/
def Disj (fs : FS) : Prop := ∀ p ∈ fs.files, p ∉ fs.dirs

instance (fs : FS) : Decidable (Disj fs) := by unfold Disj; infer_instance

/-- After a delete of `p` has run, `p` is no longer a file, and if `p` is
still a directory it has no file directly inside. -/
def safeAt (fs : FS) (p : FPath) : Prop :=
  p ∉ fs.files ∧ (p ∈ fs.dirs → ∀ f ∈ fs.files, parentP f ≠ p)

/-! ## downloads_import.py : classification, quality scoring, import -/

/-- `\\w` for ASCII: letters, digits and underscore. -/
def isWordC (c : Char) : Bool := c.isAlphanum || c == '_'

/-- `\\s` for ASCII: space (32), tab (9), newline (10), carriage return
(13), vertical tab (11), form feed (12). -/
def isSpaceCh (c : Char) : Bool :=
  decide (c.toNat = 32 ∨ c.toNat = 9 ∨ c.toNat = 10 ∨ c.toNat = 13
    ∨ c.toNat = 11 ∨ c.toNat = 12)

/-- Python `str.strip()`. -/
def pyStrip (l : List Char) : List Char :=
  ((l.dropWhile isSpaceCh).reverse.dropWhile isSpaceCh).reverse

/-- The word boundary `\\b` that precedes a token: start of string or a
non-word character (every token we search for begins with a word
character). -/
def bdyBefore : Option Char → Bool
  | none => true
  | some c => !isWordC c

/-- Does `s` begin (case-insensitively) with `tok`, followed by a word
boundary? (Every token we search for ends with a word character, so the
trailing `\\b` demands end-of-string or a non-word character.) -/
def tokStartsAt : List Char → List Char → Bool
  | [], [] => true
  | [], c :: _ => !isWordC c
  | _ :: _, [] => false
  | t :: ts, c :: cs => (c.toLower == t) && tokStartsAt ts cs

/-- Is there a word-bounded, case-insensitive occurrence of `tok` in the
remaining input, `prev` being the character just before it? -/
def hasTokAux (tok : List Char) : Option Char → List Char → Bool
  | prev, [] => bdyBefore prev && tokStartsAt tok []
  | prev, c :: cs => (bdyBefore prev && tokStartsAt tok (c :: cs)) || hasTokAux tok (some c) cs

/-- `re.search(r'\\btok\\b', s, re.IGNORECASE)` as a Boolean, for a token
with no internal regex operators. -/
def hasTokCI (tok : String) (s : List Char) : Bool := hasTokAux tok.data none s

/-- An alternation `\\b(t1|t2|...)\\b` of plain tokens. -/
def anyTok (toks : List String) (s : List Char) : Bool := toks.any fun t => hasTokCI t s

/-- Drop a case-insensitive occurrence of `tok` from the head of `s`. -/
def dropCI : List Char → List Char → Option (List Char)
  | [], s => some s
  | _ :: _, [] => none
  | t :: ts, c :: cs => if c.toLower == t then dropCI ts cs else none

/-- `Dolby[\\s\\.]?Vision` anchored at the head of `s` (with the trailing
word boundary after `Vision`). -/
def dolbyAt (s : List Char) : Bool :=
  match dropCI "dolby".data s with
  | none => false
  | some r =>
    tokStartsAt "vision".data r ||
      match r with
      | c :: r2 => (isSpaceCh c || c == '.') && tokStartsAt "vision".data r2
      | [] => false

/-- Search for `\\bDolby[\\s\\.]?Vision\\b`. -/
def hasDolbyVisionAux : Option Char → List Char → Bool
  | _, [] => false
  | prev, c :: cs => (bdyBefore prev && dolbyAt (c :: cs)) || hasDolbyVisionAux (some c) cs

def hasDolbyVision (s : List Char) : Bool := hasDolbyVisionAux none s

/-- The human-readable fields `extract_quality_info` fills in alongside the
score. -/
structure QInfo where
  resolution : Nat
  codec : String
  is_hdr : Bool
  audio : String
deriving DecidableEq

/-- `extract_quality_info`: the purely additive quality score (and info)
derived from a filename. Each axis contributes the first matching tier,
highest first. -/
def extract_quality_info (filename : String) : Nat × QInfo :=
  let s := filename.data
  let res : Nat × Nat :=
    if anyTok ["2160p"] s then (2160, 4000)
    else if anyTok ["1080p"] s then (1080, 2000)
    else if anyTok ["720p"] s then (720, 1000)
    else if anyTok ["480p"] s then (480, 500)
    else (0, 0)
  let codec : String × Nat :=
    if anyTok ["x265", "hevc", "h265", "h.265", "av1"] s then ("x265/HEVC/AV1", 300)
    else if anyTok ["x264", "h264", "h.264", "avc"] s then ("x264/H.264", 200)
    else ("", 0)
  let hdr : Bool × Nat :=
    if anyTok ["hdr", "hdr10", "dovi"] s || hasDolbyVision s then (true, 500) else (false, 0)
  let srcScore : Nat :=
    if anyTok ["bluray"] s then 400
    else if anyTok ["web-dl", "webdl", "webrip"] s then 300
    else if anyTok ["hdtv"] s then 200
    else 0
  let audio : String × Nat :=
    if anyTok ["atmos", "truehd", "dts-hd", "dts-x"] s then ("High-quality audio", 100)
    else if anyTok ["ddp", "dd+5.1", "dd.5.1", "dd5.1", "ac3"] s then ("Standard audio", 50)
    else ("", 0)
  (res.2 + codec.2 + hdr.2 + srcScore + audio.2, ⟨res.1, codec.1, hdr.1, audio.1⟩)

/-- `compare_quality`: scores both names, then — only when the scores are
exactly equal and the *new* file is more than 10% larger — adds a +50
bonus to the new score. Returns
`(new is strictly better, new score, existing score, new info, old info)`.
File sizes are passed in (they come from `os.path.getsize`; the source
skips the bonus step if `getsize` raises — sizes are assumed readable
here); the float `1.1` is the exact rational 11/10. -/
def compare_quality (newFile : String) (newSize : Nat)
    (existingFile : String) (existingSize : Nat) :
    Bool × Nat × Nat × QInfo × QInfo :=
  let n := extract_quality_info newFile
  let e := extract_quality_info existingFile
  let newScore := if n.1 = e.1 ∧ 10 * newSize > 11 * existingSize then n.1 + 50 else n.1
  (decide (newScore > e.1), newScore, e.1, n.2, e.2)

/-! ### TV-show detection and identity extraction -/

def isSch (c : Char) : Bool := c == 's' || c == 'S'

def isEch (c : Char) : Bool := c == 'e' || c == 'E'

def isXch (c : Char) : Bool := c == 'x' || c == 'X'

def digitVal (c : Char) : Nat := c.toNat - '0'.toNat

/-- The part `(\\d{1,2})E\\d{1,2}` that follows the `S` of an episode
marker; returns the season number. The `\\d{1,2}` is greedy with
backtracking: two digits are preferred, and if the two-digit reading is
not followed by `E` and a digit, the one-digit reading needs the second
character to be `E` — which a digit never is. -/
def seasonSE : List Char → Option Nat
  | d1 :: c2 :: r2 =>
    if d1.isDigit then
      if c2.isDigit then
        match r2 with
        | e :: d :: _ =>
          if isEch e ∧ d.isDigit then some (10 * digitVal d1 + digitVal c2) else none
        | _ => none
      else if isEch c2 then
        match r2 with
        | d :: _ => if d.isDigit then some (digitVal d1) else none
        | [] => none
      else none
    else none
  | _ => none

/-- `(\\d{1,2})x\\d{1,2}` anchored at the head; returns the season. -/
def seasonX : List Char → Option Nat
  | d1 :: c2 :: r2 =>
    if d1.isDigit then
      if c2.isDigit then
        match r2 with
        | x :: d :: _ =>
          if isXch x ∧ d.isDigit then some (10 * digitVal d1 + digitVal c2) else none
        | _ => none
      else if isXch c2 then
        match r2 with
        | d :: _ => if d.isDigit then some (digitVal d1) else none
        | [] => none
      else none
    else none
  | _ => none

/-- `S\\d{1,2}E\\d{1,2}` anchored at the head of the list. -/
def checkSE (l : List Char) : Bool :=
  match l with
  | c :: r => isSch c && (seasonSE r).isSome
  | [] => false

/-- `\\d{1,2}x\\d{1,2}` anchored at the head of the list. -/
def checkX (l : List Char) : Bool := (seasonX l).isSome

/-- `re.search`: does the anchored check succeed at some position? -/
def existsAt (chk : List Char → Bool) : List Char → Bool
  | [] => false
  | c :: r => chk (c :: r) || existsAt chk r

/-- `is_tv_show`: the name contains `S<1-2 digits>E<1-2 digits>` or
`<1-2 digits>x<1-2 digits>`, case-insensitively. -/
def is_tv_show (filename : String) : Bool :=
  existsAt checkSE filename.data || existsAt checkX filename.data

/-- The separator class `[.\\s]` of the extraction patterns. -/
def isSepC (c : Char) : Bool := c == '.' || isSpaceCh c

/-- `[.\\s]+S(\\d{1,2})E\\d{1,2}` anchored at the head: one or more
separators, then the episode marker; returns the season. -/
def sepMarkerS (l : List Char) : Option Nat :=
  match l with
  | c :: _ =>
    if isSepC c then
      match l.dropWhile isSepC with
      | s :: r => if isSch s then seasonSE r else none
      | [] => none
    else none
  | [] => none

/-- `[.\\s]+(\\d{1,2})x\\d{1,2}` anchored at the head. -/
def sepMarkerX (l : List Char) : Option Nat :=
  match l with
  | c :: _ => if isSepC c then seasonX (l.dropWhile isSepC) else none
  | [] => none

/-- The lazy group `(.+?)` of `re.search(r'(.+?)<marker>', s)`: scan left
to right for the shortest non-empty prefix after which `marker` matches;
`.` does not cross a newline, so the candidate prefix restarts after each
newline. Returns the matched prefix (group 1) and the marker's value. -/
def scanPre {α : Type} (marker : List Char → Option α) :
    List Char → List Char → Option (List Char × α)
  | _, [] => none
  | pre, c :: rest =>
    if c = '\n' then scanPre marker [] rest
    else
      match marker rest with
      | some n => some (pre ++ [c], n)
      | none => scanPre marker (pre ++ [c]) rest

def dotsToSpaces (l : List Char) : List Char :=
  l.map fun c => if c = '.' then ' ' else c

/-- `extract_tv_show_info`: try the `S##E##` pattern, then the `##x##`
pattern; on a match, group 1 with `.` replaced by spaces and stripped is
the show name, group 2 is the season. `(None, None)` is `none`. -/
def extract_tv_show_info (filename : String) : Option (String × Nat) :=
  match scanPre sepMarkerS [] filename.data with
  | some (pre, n) => some (String.mk (pyStrip (dotsToSpaces pre)), n)
  | none =>
    match scanPre sepMarkerX [] filename.data with
    | some (pre, n) => some (String.mk (pyStrip (dotsToSpaces pre)), n)
    | none => none

/-! ### Movie identity extraction -/

/-- `[.\\s]+((?:19|20)\\d{2})` anchored at the head: separators then a
year 19xx or 20xx; returns the four year characters. -/
def yearMarker (l : List Char) : Option (List Char) :=
  match l with
  | c :: _ =>
    if isSepC c then
      match l.dropWhile isSepC with
      | d1 :: d2 :: d3 :: d4 :: _ =>
        if ((d1 = '1' ∧ d2 = '9') ∨ (d1 = '2' ∧ d2 = '0')) ∧ d3.isDigit ∧ d4.isDigit
        then some [d1, d2, d3, d4] else none
      | _ => none
    else none
  | [] => none

/-- `re.sub(r'\\.(mkv|mp4|avi)$', '', ...)`: drop a recognized extension
from the tail (`$` also matching just before a trailing newline is not
modelled; filenames are newline-free). -/
def stripExtn (l : List Char) : List Char :=
  let tail4 := (l.drop (l.length - 4)).map Char.toLower
  if l.length ≥ 4 ∧
      (tail4 = ".mkv".data ∨ tail4 = ".mp4".data ∨ tail4 = ".avi".data)
  then l.take (l.length - 4) else l

def isSep3 (c : Char) : Bool := c == '.' || c == '-' || c == '_'

/-- `re.sub(r'[\\.\\-_]+', ' ', ...)`: each maximal run of `.`, `-`, `_`
becomes a single space. The Boolean records whether the previous character
was part of such a run. -/
def collapseSepsAux : Bool → List Char → List Char
  | _, [] => []
  | prevSep, c :: r =>
    if isSep3 c then
      if prevSep then collapseSepsAux true r else ' ' :: collapseSepsAux true r
    else c :: collapseSepsAux false r

def collapseSeps (l : List Char) : List Char := collapseSepsAux false l

/-- The release-tag alternation of `extract_movie_info` (all lowercase; the
search is case-insensitive). Note the input has already had `.`/`-`/`_`
runs collapsed to spaces, so the tags containing `.` or `-` can no longer
occur — a faithful rendering of the source's behavior. -/
def relTags : List String :=
  ["1080p", "720p", "2160p", "bluray", "web-dl", "x265", "x264", "rarbg",
    "hevc", "h.264", "h.265"]

/-- `re.sub(r'\\b(<tags>)\\b.*$', '', ...)`: cut from the first
word-bounded tag occurrence to the end (filenames are single-line, so
`.*$` runs to the end of the input). -/
def cutTagsAux : Option Char → List Char → List Char
  | _, [] => []
  | prev, c :: r =>
    if bdyBefore prev && relTags.any (fun t => tokStartsAt t.data (c :: r)) then []
    else c :: cutTagsAux (some c) r

/-- `extract_movie_info`: with a year, `"<name> (<year>)"`; without one,
the extension- and tag-stripped, separator-collapsed name. -/
def extract_movie_info (filename : String) : String :=
  match scanPre yearMarker [] filename.data with
  | some (pre, y) =>
    String.mk (pyStrip (dotsToSpaces pre)) ++ " (" ++ String.mk y ++ ")"
  | none =>
    String.mk (pyStrip (cutTagsAux none (collapseSeps (stripExtn filename.data))))

/-! ### The import copy/replace decision (`copy_movie`) -/

/-- A file in the destination library: its full path, its basename, and
its size in bytes. -/
structure LFile where
  path : String
  name : String
  size : Nat
deriving DecidableEq

/-- `check_file_exists_in_tree`: first file in walk order whose basename
equals `filename` (the library list is in walk order). -/
def check_file_exists_in_tree (lib : List LFile) (filename : String) : Option LFile :=
  lib.find? fun f => f.name == filename

/-- `copy_movie`: if the exact filename exists in the tree, either compare
quality (when the replace policy is on) and replace only a strictly better
new file, or skip unconditionally; otherwise copy into the folder named by
`extract_movie_info`. Replacement removes the existing file and copies the
new content to the existing path (so the entry keeps its path and name and
takes the incoming size). Returns the outcome tag and the new library. -/
def copy_movie (sourcePath : String) (sourceSize : Nat) (filename : String)
    (baseFolder : String) (dry replaceBetter : Bool) (lib : List LFile) :
    String × List LFile :=
  match check_file_exists_in_tree lib filename with
  | some ex =>
    if replaceBetter then
      if (compare_quality sourcePath sourceSize ex.path ex.size).1 then
        if dry then ("would_replace", lib)
        else ("replaced",
          lib.map fun f => if f.path == ex.path then ⟨f.path, f.name, sourceSize⟩ else f)
      else ("skipped", lib)
    else ("skipped", lib)
  | none =>
    let folder := extract_movie_info filename
    if dry then ("would_copy", lib)
    else ("copied",
      lib ++ [⟨baseFolder ++ "/" ++ folder ++ "/" ++ filename, filename, sourceSize⟩])

/-! ## movie_cleanup.py / movie_analyzer.py : name normalization and the
cleanup planner (`handle_duplicates`, `rename_for_radarr`) -/

/-- One attempted match of `\\s*\\(\\d{4}\\)\\s*` anchored at the head of
the list: greedy leading whitespace, a parenthesized 4-digit year, greedy
trailing whitespace; returns the remainder after the match. -/
def yearTail (l : List Char) : Option (List Char) :=
  match l.dropWhile isSpaceCh with
  | a :: d1 :: d2 :: d3 :: d4 :: b :: rest2 =>
    if a = '(' ∧ d1.isDigit ∧ d2.isDigit ∧ d3.isDigit ∧ d4.isDigit ∧ b = ')' then
      some (rest2.dropWhile isSpaceCh)
    else none
  | _ => none

/-- The scan of `re.sub(r'\\s*\\(\\d{4}\\)\\s*', '', name)`: at each
position try the year pattern; on a match drop the matched span and
continue after it, otherwise keep the character and move on. A match
consumes at least six characters and a non-match consumes one, so the
input length is enough fuel: `stripYearGo_fuel` below shows the result
does not depend on the fuel once it is at least the input length. -/
def stripYearGo : Nat → List Char → List Char
  | 0, _ => []
  | _ + 1, [] => []
  | n + 1, c :: rest =>
    match yearTail (c :: rest) with
    | some r => stripYearGo n r
    | none => c :: stripYearGo n rest

/-- `re.sub(r'\\s*\\(\\d{4}\\)\\s*', '', name)` — the year-removal shared
by both `clean_movie_name`s. -/
def stripYear (l : List Char) : List Char := stripYearGo l.length l

/-- `re.search(r'\((\d{4})\)', folder_name)` anchored at the head. -/
def yearAt : List Char → Option String
  | a :: d1 :: d2 :: d3 :: d4 :: b :: _ =>
    if a = '(' ∧ d1.isDigit ∧ d2.isDigit ∧ d3.isDigit ∧ d4.isDigit ∧ b = ')' then
      some (String.mk [d1, d2, d3, d4])
    else none
  | _ => none

def yearSearch : List Char → Option String
  | [] => none
  | c :: r =>
    match yearAt (c :: r) with
    | some y => some y
    | none => yearSearch r

/-- `extract_year`: the first `(dddd)` group in the folder name, as a
string (identical in `movie_cleanup.py` and `movie_analyzer.py`). -/
def extract_year (folder_name : String) : Option String :=
  yearSearch folder_name.data

/-- The expansions of `M{0,4}` (lowercased). -/
def romanThousands : List String := ["", "m", "mm", "mmm", "mmmm"]

/-- The expansions of `(CM|CD|D?C{0,3})` (lowercased). -/
def romanHundreds : List String :=
  ["cm", "cd", "", "c", "cc", "ccc", "d", "dc", "dcc", "dccc"]

/-- The expansions of `(XC|XL|L?X{0,3})` (lowercased). -/
def romanTens : List String :=
  ["xc", "xl", "", "x", "xx", "xxx", "l", "lx", "lxx", "lxxx"]

/-- The expansions of `(IX|IV|V?I{0,3})` (lowercased). -/
def romanOnes : List String :=
  ["ix", "iv", "", "i", "ii", "iii", "v", "vi", "vii", "viii"]

/-- The roman-numeral regex of `radarr_title_case`:
`^(?=[MDCLXVI])M{0,4}(CM|CD|D?C{0,3})(XC|XL|L?X{0,3})(IX|IV|V?I{0,3})$`
with `re.I`. An anchored backtracking match succeeds exactly when some
choice of the quantifier/alternation expansions concatenates to the whole
(lowercased) word; the lookahead requires a roman letter up front. -/
def romanNum (w : String) : Bool :=
  match w.data with
  | [] => false
  | c :: _ =>
    if ['m', 'd', 'c', 'l', 'x', 'v', 'i'].contains c.toLower then
      let l := w.data.map Char.toLower
      romanThousands.any fun a =>
        match dropCI a.data l with
        | none => false
        | some l1 => romanHundreds.any fun b =>
          match dropCI b.data l1 with
          | none => false
          | some l2 => romanTens.any fun t =>
            match dropCI t.data l2 with
            | none => false
            | some l3 => romanOnes.any fun o =>
              match dropCI o.data l3 with
              | none => false
              | some l4 => l4.isEmpty
    else false

/-- Python `str.capitalize()`: first character uppercased, the rest
lowercased. -/
def pyCapitalize (w : String) : String :=
  match w.data with
  | [] => ""
  | c :: r => String.mk (c.toUpper :: r.map Char.toLower)

/-- Python `str.split()` (no argument): split on whitespace runs,
discarding empty parts. The accumulator holds the current word,
reversed. -/
def splitWsAux : List Char → List Char → List (List Char)
  | cur, [] => if cur.isEmpty then [] else [cur.reverse]
  | cur, c :: r =>
    if isSpaceCh c then
      if cur.isEmpty then splitWsAux [] r else cur.reverse :: splitWsAux [] r
    else splitWsAux (c :: cur) r

def splitWs (l : List Char) : List (List Char) := splitWsAux [] l

/-- The words Radarr keeps lowercase unless first or last. -/
def smallWords : List String :=
  ["a", "an", "the", "and", "but", "or", "nor",
    "as", "at", "by", "for", "in", "of", "on", "per",
    "to", "vs", "via", "from", "into", "onto"]

/-- One word of `radarr_title_case`: roman numerals upper-cased; first and
last words capitalized; small words lowered; hyphenated words capitalized
part by part (roman parts upper-cased); anything else capitalized. -/
def titleWord (total idx : Nat) (w : List Char) : List Char :=
  if romanNum (String.mk w) then w.map Char.toUpper
  else if idx = 0 ∨ idx = total - 1 then (pyCapitalize (String.mk w)).data
  else if smallWords.contains (String.mk (w.map Char.toLower)) then w.map Char.toLower
  else if w.contains '-' then
    List.intercalate ['-'] ((splitOnC '-' w).map fun p =>
      if romanNum (String.mk p) then p.map Char.toUpper
      else (pyCapitalize (String.mk p)).data)
  else (pyCapitalize (String.mk w)).data

/-- `radarr_title_case`. -/
def radarr_title_case (title : String) : String :=
  let words := splitWs title.data
  String.intercalate " "
    ((words.mapIdx fun i w => String.mk (titleWord words.length i w)))

namespace Cleanup

/-- `movie_cleanup.clean_movie_name`: remove the year, underscores to
spaces, collapse whitespace, then Radarr title case. Note: unlike the
analyzer's normalization, this keeps punctuation and case-folds only
through the title-casing. -/
def clean_movie_name (name : String) : String :=
  let b1 := stripYear name.data
  let b2 := b1.map fun c => if c = '_' then ' ' else c
  let b3 := String.intercalate " " ((splitWs b2).map String.mk)
  radarr_title_case b3

end Cleanup

namespace Analyzer

/-- `movie_analyzer.clean_movie_name`: remove the year, lowercase, strip
`[^\w\s]`, collapse whitespace. -/
def clean_movie_name (name : String) : String :=
  String.intercalate " "
    ((splitWs (((stripYear name.data).map Char.toLower).filter
        fun c => isWordC c || isSpaceCh c)).map String.mk)

end Analyzer

namespace Cleanup

/-- An action dict emitted by the cleanup planner (`handle_duplicates`,
`rename_for_radarr`): a `delete` carries `path` and `reason`, a `skip`
carries `path` and `reason`, a `rename` carries the old/new path and
name fields. -/
structure CAction where
  action : String
  path : Option String := none
  reason : Option String := none
  old_path : Option String := none
  new_path : Option String := none
  old_name : Option String := none
  new_name : Option String := none
deriving DecidableEq

/-- A child of the movie root as the planner sees it: its name, whether it
is a directory, and its total on-disk size in MB (`size_mb` is a float in
the source — the byte total divided by 1024²: we model it as an exact
rational). Paths are modelled root-relative, as the names themselves. -/
structure Entry where
  name : String
  isDir : Bool
  size_mb : ℚ
deriving DecidableEq

/-- The per-folder record `handle_duplicates` builds while scanning. -/
structure FolderRec where
  name : String
  year : Option String
  size_mb : ℚ
deriving DecidableEq

/-- The sort key `(x['year'] is not None, x['size_mb'])`. -/
def dupKey (fr : FolderRec) : Bool × ℚ := (fr.year.isSome, fr.size_mb)

/-- Ordering on keys: `False < True` on the year flag, then the size. -/
def keyLe (a b : Bool × ℚ) : Prop :=
  (a.1 = b.1 ∧ a.2 ≤ b.2) ∨ (a.1 = false ∧ b.1 = true)

instance : ∀ a b, Decidable (keyLe a b) := fun a b => by
  unfold keyLe; infer_instance

/-- `sorted(folders, key=..., reverse=True)` sorts descending by key and,
being stable, keeps the scan order among equal keys; `x` before `y` in the
result means `key y ≤ key x`. -/
def dupOrd (x y : FolderRec) : Prop := keyLe (dupKey y) (dupKey x)

instance : DecidableRel dupOrd := fun x y => by
  unfold dupOrd; infer_instance

instance : IsTotal FolderRec dupOrd := by
  constructor
  intro x y
  unfold dupOrd keyLe
  rcases hx : (dupKey x).1 with _ | _ <;> rcases hy : (dupKey y).1 with _ | _ <;>
    rcases le_total (dupKey x).2 (dupKey y).2 with h | h <;>
    simp [hx, hy, h]

instance : IsTrans FolderRec dupOrd := by
  constructor
  intro x y z hxy hyz
  unfold dupOrd keyLe at *
  rcases hyz with ⟨e1, le1⟩ | ⟨f1, f2⟩ <;> rcases hxy with ⟨e2, le2⟩ | ⟨g1, g2⟩
  · exact Or.inl ⟨e1.trans e2, le1.trans le2⟩
  · exact Or.inr ⟨e1.trans g1, g2⟩
  · exact Or.inr ⟨f1, e2 ▸ f2⟩
  · exact Or.inr ⟨f1, g2⟩

/-- The stable descending sort of a duplicate group (Python `sorted` with
`reverse=True`). -/
def dupSort (g : List FolderRec) : List FolderRec := List.insertionSort dupOrd g

/-- The keeper of a group: the head of the sorted group. -/
def keeperOf (g : List FolderRec) : Option FolderRec := (dupSort g).head?

/-- Append a folder record to its group, keyed by clean name, preserving
first-seen key order (Python dict insertion order). -/
def addToGroups (gs : List (String × List FolderRec)) (k : String) (fr : FolderRec) :
    List (String × List FolderRec) :=
  match gs with
  | [] => [(k, [fr])]
  | (k2, l) :: t =>
    if k2 = k then (k2, l ++ [fr]) :: t else (k2, l) :: addToGroups t k fr

/-- The scan-and-group pass of `handle_duplicates`: every directory child,
grouped by `clean_movie_name`, with its extracted year and size. -/
def scanGroups (st : List Entry) : List (String × List FolderRec) :=
  st.foldl
    (fun gs e =>
      if e.isDir then
        addToGroups gs (clean_movie_name e.name) ⟨e.name, extract_year e.name, e.size_mb⟩
      else gs)
    []

/-- One duplicate group processed by `handle_duplicates`: sort descending,
keep the head, plan (and outside dry-run apply) a delete for every other
folder. -/
def hdStep (dry : Bool) (acc : List CAction × List Entry)
    (g : String × List FolderRec) : List CAction × List Entry :=
  match dupSort g.2 with
  | [] => acc
  | keep :: remove =>
    (acc.1 ++ remove.map fun d =>
        { action := "delete", path := some d.name,
          reason := some ("Duplicate of " ++ keep.name) },
      if dry then acc.2
      else acc.2.filter fun e => ¬ remove.any fun d => d.name == e.name)

/-- `handle_duplicates`: group the root's directories by clean name, and
for every group of two or more resolve the duplicate. Returns the planned
actions and the resulting state (unchanged under dry-run). -/
def handle_duplicates (dry : Bool) (st : List Entry) : List CAction × List Entry :=
  ((scanGroups st).filter fun g => g.2.length > 1).foldl (hdStep dry) ([], st)

/-- `re.match(r'^.+\s\(\d{4}\)$', name)`: already in Radarr format — at
least one non-newline character, one whitespace, then `(year)` at the very
end. (`$` also matching just before a trailing newline is not modelled;
folder names are newline-free.) -/
def is_canonical (name : String) : Bool :=
  match name.data.reverse with
  | b :: d4 :: d3 :: d2 :: d1 :: a :: w :: t =>
    decide (b = ')' ∧ d4.isDigit ∧ d3.isDigit ∧ d2.isDigit ∧ d1.isDigit ∧ a = '('
      ∧ isSpaceCh w = true ∧ t.all (fun c => c ≠ '\n') = true ∧ t ≠ [])
  | _ => false

/-- The order of `sorted(root.iterdir())` restricted to one parent:
lexicographic on the names. -/
def nameLe (a b : String) : Prop := charListLe a.data b.data = true

instance : DecidableRel nameLe := fun a b =>
  inferInstanceAs (Decidable (charListLe a.data b.data = true))

/-- One snapshot item processed by `rename_for_radarr`: skip non-dirs and
canonical names; find a year (directly, else by lookup); plan a skip when
no year or when the target name exists; otherwise plan the rename and
(outside dry-run) apply it. -/
def rnStep (lookup : String → Option String) (dry : Bool)
    (acc : List CAction × List Entry) (nm : String) : List CAction × List Entry :=
  match acc.2.find? fun e => e.name == nm with
  | none => acc
  | some e =>
    if ¬ e.isDir then acc
    else if is_canonical nm then acc
    else
      match (match extract_year nm with
             | some y => some y
             | none => lookup (clean_movie_name nm)) with
      | none =>
        (acc.1 ++ [{ action := "skip", path := some nm,
                      reason := some "No year available" }], acc.2)
      | some y =>
        if acc.2.any fun e2 => e2.name == clean_movie_name nm ++ " (" ++ y ++ ")" then
          (acc.1 ++ [{ action := "skip", path := some nm,
                        reason := some ("Target " ++ (clean_movie_name nm ++ " (" ++ y ++ ")")
                          ++ " already exists") }], acc.2)
        else
          (acc.1 ++ [{ action := "rename", old_path := some nm,
                        new_path := some (clean_movie_name nm ++ " (" ++ y ++ ")"),
                        old_name := some nm,
                        new_name := some (clean_movie_name nm ++ " (" ++ y ++ ")") }],
            if dry then acc.2
            else acc.2.map fun e2 =>
              if e2.name == nm then { e2 with name := clean_movie_name nm ++ " (" ++ y ++ ")" }
              else e2)

/-- `rename_for_radarr`: iterate the sorted snapshot of the root's
children, threading the live state; the TMDb lookup is the `lookup`
oracle. -/
def rename_for_radarr (lookup : String → Option String) (dry : Bool)
    (st : List Entry) : List CAction × List Entry :=
  (List.insertionSort nameLe (st.map Entry.name)).foldl (rnStep lookup dry) ([], st)

end Cleanup


/-! ## Theorems

First, general lemmas about the executor; then, per-claim theorems. -/

theorem execAction_results (dry : Bool) (fs : FS) (fl : List FPath) (a : ActionObj) :
    (execAction dry fs fl a).1 = resOf a := by
  unfold execAction resOf
  cases h : effSrc a <;> split_ifs <;> simp [h]

theorem runActs_results (dry : Bool) (acts : List ActionObj) (fs : FS) (fl : List FPath) :
    (runActs dry acts fs fl).1 = acts.flatMap resOf := by
  induction acts generalizing fs fl with
  | nil => rfl
  | cons a rest ih => simp [runActs, execAction_results, ih]

theorem execActionsList_results (dry : Bool) (acts : List ActionObj) (fs : FS) :
    (execActionsList dry acts fs).1 = acts.flatMap resOf := by
  simp [execActionsList, runActs_results]

theorem deleteAt_files_sub (fs : FS) (p : FPath) :
    (deleteAt fs p).files ⊆ fs.files := by
  unfold deleteAt
  split_ifs <;> first
  | exact List.filter_subset' _
  | exact fun _ h => h

theorem deleteAt_dirs_sub (fs : FS) (p : FPath) :
    (deleteAt fs p).dirs ⊆ fs.dirs := by
  unfold deleteAt
  split_ifs <;> first
  | exact List.filter_subset' _
  | exact fun _ h => h

theorem execAction_files_sub (dry : Bool) (fs : FS) (fl : List FPath) (a : ActionObj) :
    (execAction dry fs fl a).2.1.files ⊆ fs.files := by
  unfold execAction
  cases h : effSrc a <;> split_ifs <;> try exact fun _ h => h
  exact deleteAt_files_sub fs _

theorem execAction_dirs_sub (dry : Bool) (fs : FS) (fl : List FPath) (a : ActionObj) :
    (execAction dry fs fl a).2.1.dirs ⊆ fs.dirs := by
  unfold execAction
  cases h : effSrc a <;> split_ifs <;> try exact fun _ h => h
  exact deleteAt_dirs_sub fs _

theorem runActs_files_sub (dry : Bool) (acts : List ActionObj) (fs : FS) (fl : List FPath) :
    (runActs dry acts fs fl).2.1.files ⊆ fs.files := by
  induction acts generalizing fs fl with
  | nil => exact fun _ h => h
  | cons a rest ih =>
    exact fun q hq => execAction_files_sub dry fs fl a (ih _ _ hq)

theorem runActs_dirs_sub (dry : Bool) (acts : List ActionObj) (fs : FS) (fl : List FPath) :
    (runActs dry acts fs fl).2.1.dirs ⊆ fs.dirs := by
  induction acts generalizing fs fl with
  | nil => exact fun _ h => h
  | cons a rest ih =>
    exact fun q hq => execAction_dirs_sub dry fs fl a (ih _ _ hq)

theorem cleanupStep_files (dry : Bool) (fs : FS) (p : FPath) :
    (cleanupStep dry fs p).files = fs.files := by
  unfold cleanupStep; split_ifs <;> rfl

theorem cleanupStep_dirs_sub (dry : Bool) (fs : FS) (p : FPath) :
    (cleanupStep dry fs p).dirs ⊆ fs.dirs := by
  unfold cleanupStep
  split_ifs
  · exact List.filter_subset' _
  · exact fun _ h => h

theorem foldl_cleanup_files (dry : Bool) (l : List FPath) (fs : FS) :
    (l.foldl (cleanupStep dry) fs).files = fs.files := by
  induction l generalizing fs with
  | nil => rfl
  | cons p rest ih => rw [List.foldl_cons, ih, cleanupStep_files]

theorem foldl_cleanup_dirs_sub (dry : Bool) (l : List FPath) (fs : FS) :
    (l.foldl (cleanupStep dry) fs).dirs ⊆ fs.dirs := by
  induction l generalizing fs with
  | nil => exact fun _ h => h
  | cons p rest ih =>
    exact fun q hq => cleanupStep_dirs_sub dry fs p (ih _ hq)

theorem cleanupFolders_files (dry : Bool) (fl : List FPath) (fs : FS) :
    (cleanupFolders dry fl fs).files = fs.files :=
  foldl_cleanup_files dry _ fs

theorem cleanupFolders_dirs_sub (dry : Bool) (fl : List FPath) (fs : FS) :
    (cleanupFolders dry fl fs).dirs ⊆ fs.dirs :=
  foldl_cleanup_dirs_sub dry _ fs

theorem Disj.mono {fs fs' : FS} (h : Disj fs)
    (hf : fs'.files ⊆ fs.files) (hd : fs'.dirs ⊆ fs.dirs) : Disj fs' :=
  fun p hp hdp => h p (hf hp) (hd hdp)

theorem safeAt_mono {fs fs' : FS} {p : FPath} (h : safeAt fs p)
    (hf : fs'.files ⊆ fs.files) (hd : fs'.dirs ⊆ fs.dirs) : safeAt fs' p :=
  ⟨fun hp => h.1 (hf hp), fun hdp f hfm => h.2 (hd hdp) f (hf hfm)⟩

theorem mem_srcPaths_head {a : ActionObj} {rest : List ActionObj} {s : String}
    (hd : a.action = some "delete") (hs : effSrc a = some s) :
    toFPath s ∈ srcPaths (a :: rest) := by
  simp [srcPaths, List.filterMap_cons, hd, hs]

theorem mem_srcPaths_tail {a : ActionObj} {rest : List ActionObj} {p : FPath}
    (hp : p ∈ srcPaths rest) : p ∈ srcPaths (a :: rest) := by
  simp only [srcPaths, List.filterMap_cons]
  split
  · exact hp
  · exact List.mem_cons_of_mem _ hp

theorem deleteAt_safeAt {fs : FS} (hD : Disj fs) (p : FPath) :
    safeAt (deleteAt fs p) p := by
  unfold deleteAt
  by_cases h1 : p ∈ fs.files
  · have hnd : p ∉ fs.dirs := hD p h1
    refine ⟨?_, fun hdp => absurd hdp (by simpa [h1] using hnd)⟩
    simp [h1]
  · by_cases h2 : p ∈ fs.dirs
    · constructor
      · intro hmem
        simp only [h1, h2, if_true, if_false] at hmem
        split_ifs at hmem <;> exact h1 (List.mem_of_mem_filter hmem)
      · intro _ f hf
        simp only [h1, h2, if_true, if_false] at hf
        split_ifs at hf <;> simpa using (List.mem_filter.mp hf).2
    · refine ⟨by simp [h1, h2], fun hdp => absurd hdp (by simp [h1, h2])⟩

theorem execAction_safeAt {fs : FS} {fl : List FPath} {a : ActionObj} {s : String}
    (hD : Disj fs) (ha : a.action = some "delete") (hs : effSrc a = some s) :
    safeAt (execAction false fs fl a).2.1 (toFPath s) := by
  unfold execAction
  simp only [ha, hs]
  simpa using deleteAt_safeAt hD (toFPath s)

theorem execAction_disj {dry : Bool} {fs : FS} {fl : List FPath} {a : ActionObj}
    (hD : Disj fs) : Disj (execAction dry fs fl a).2.1 :=
  hD.mono (execAction_files_sub dry fs fl a) (execAction_dirs_sub dry fs fl a)

theorem runActs_safe (acts : List ActionObj) :
    ∀ (fs : FS) (fl : List FPath), Disj fs →
      ∀ p ∈ srcPaths acts, safeAt (runActs false acts fs fl).2.1 p := by
  induction acts with
  | nil => intro fs fl _ p hp; simp [srcPaths] at hp
  | cons a rest ih =>
    intro fs fl hD p hp
    have hDA : Disj (execAction false fs fl a).2.1 := execAction_disj hD
    have hstep : (runActs false (a :: rest) fs fl).2.1
        = (runActs false rest (execAction false fs fl a).2.1
            (execAction false fs fl a).2.2).2.1 := rfl
    rw [hstep]
    by_cases hd : a.action = some "delete"
    · cases hsrc : effSrc a with
      | none =>
        apply ih _ _ hDA
        simpa [srcPaths, List.filterMap_cons, hd, hsrc] using hp
      | some s =>
        have hp' : p = toFPath s ∨ p ∈ srcPaths rest := by
          simpa [srcPaths, List.filterMap_cons, hd, hsrc] using hp
        rcases hp' with rfl | hp'
        · exact safeAt_mono (execAction_safeAt hD hd hsrc)
            (runActs_files_sub false rest _ _) (runActs_dirs_sub false rest _ _)
        · exact ih _ _ hDA p hp'
    · apply ih _ _ hDA
      simpa [srcPaths, List.filterMap_cons, hd] using hp

theorem execActionsList_safe {acts : List ActionObj} {fs : FS} (hD : Disj fs) :
    ∀ p ∈ srcPaths acts, safeAt (execActionsList false acts fs).2 p := by
  intro p hp
  apply safeAt_mono (runActs_safe acts fs [] hD p hp)
  · show (execActionsList false acts fs).2.files ⊆ _
    unfold execActionsList
    rw [cleanupFolders_files]
    exact fun q hq => hq
  · exact cleanupFolders_dirs_sub false _ _

theorem deleteAt_files_of_safe {fs : FS} {p : FPath} (h : safeAt fs p) :
    (deleteAt fs p).files = fs.files := by
  unfold deleteAt
  split_ifs with h1 h2 h3
  · exact absurd h1 h.1
  · exact List.filter_eq_self.mpr fun f hf => decide_eq_true (h.2 h2 f hf)
  · exact List.filter_eq_self.mpr fun f hf => decide_eq_true (h.2 h2 f hf)
  · rfl

theorem runActs_files_of_safe (acts : List ActionObj) :
    ∀ (fs : FS) (fl : List FPath), (∀ p ∈ srcPaths acts, safeAt fs p) →
      (runActs false acts fs fl).2.1.files = fs.files := by
  induction acts with
  | nil => intro fs fl _; rfl
  | cons a rest ih =>
    intro fs fl h
    have hstep : (execAction false fs fl a).2.1.files = fs.files := by
      unfold execAction
      by_cases hm : a.action = some "move"
      · simp [hm]
      · by_cases hd : a.action = some "delete"
        · cases hsrc : effSrc a with
          | none => simp [hm, hd, hsrc]
          | some s =>
            have hsafe := h _ (mem_srcPaths_head hd hsrc)
            simp [hm, hd, hsrc, deleteAt_files_of_safe hsafe]
        · simp only [hm, hd, if_false]
          split_ifs <;> rfl
    have h' : ∀ p ∈ srcPaths rest, safeAt (execAction false fs fl a).2.1 p := by
      intro p hp
      exact safeAt_mono (h p (mem_srcPaths_tail hp))
        (by rw [hstep]; exact fun q hq => hq) (execAction_dirs_sub false fs fl a)
    calc (runActs false (a :: rest) fs fl).2.1.files
        = (runActs false rest (execAction false fs fl a).2.1
            (execAction false fs fl a).2.2).2.1.files := rfl
      _ = (execAction false fs fl a).2.1.files := ih _ _ h'
      _ = fs.files := hstep

theorem execActionsList_replay_files {acts : List ActionObj} {fs : FS}
    (h : ∀ p ∈ srcPaths acts, safeAt fs p) :
    (execActionsList false acts fs).2.files = fs.files := by
  unfold execActionsList
  simp only
  rw [cleanupFolders_files, runActs_files_of_safe acts fs [] h]

theorem effSrc_none_iff (a : ActionObj) :
    effSrc a = none ↔ truthy a.source = none ∧ truthy a.path = none := by
  unfold effSrc
  cases truthy a.source <;> simp

/-- C1 (amended): re-running an action log against the state the first run
produced returns exactly the same per-action results (so a delete whose
source no longer exists is still reported with the tolerated, non-error
status `ok`) and never removes or alters a file; the net change of the
second run is confined to directories that the first run's trailing
empty-folder sweep left newly empty. -/
theorem C1_replay_same_results_and_files (acts : List ActionObj) (fs : FS)
    (hD : Disj fs) :
    (execActionsList false acts (execActionsList false acts fs).2).1
      = (execActionsList false acts fs).1
    ∧ (execActionsList false acts (execActionsList false acts fs).2).2.files
      = (execActionsList false acts fs).2.files := by
  constructor
  · rw [execActionsList_results, execActionsList_results]
  · exact execActionsList_replay_files (execActionsList_safe hD)

/-- C1 witness: a concrete log and filesystem at which the replay theorem
applies. -/
theorem C1_witness :
    (execActionsList false [⟨some "delete", some "A/f", none⟩]
        (execActionsList false [⟨some "delete", some "A/f", none⟩]
          ⟨[["A", "f"]], [["A"]]⟩).2).1
      = (execActionsList false [⟨some "delete", some "A/f", none⟩]
          ⟨[["A", "f"]], [["A"]]⟩).1
    ∧ (execActionsList false [⟨some "delete", some "A/f", none⟩]
        (execActionsList false [⟨some "delete", some "A/f", none⟩]
          ⟨[["A", "f"]], [["A"]]⟩).2).2.files
      = (execActionsList false [⟨some "delete", some "A/f", none⟩]
          ⟨[["A", "f"]], [["A"]]⟩).2.files :=
  C1_replay_same_results_and_files _ _ (by decide)

/-- C1 counterexample: replay is not free of net filesystem change. With
files `A/B/f1` and `A/g1` and the log that deletes both, the first run
leaves directory `A` in place (when `A` is swept it still contains `B`),
but the second run's sweep then removes `A`: the second execution makes a
further net filesystem change, contradicting the claim's "zero additional
net filesystem change". -/
theorem C1_counterexample :
    (execActionsList false
        [⟨some "delete", some "A/B/f1", none⟩, ⟨some "delete", some "A/g1", none⟩]
        (execActionsList false
          [⟨some "delete", some "A/B/f1", none⟩, ⟨some "delete", some "A/g1", none⟩]
          ⟨[["A", "B", "f1"], ["A", "g1"]], [["A"], ["A", "B"]]⟩).2).2
      ≠ (execActionsList false
          [⟨some "delete", some "A/B/f1", none⟩, ⟨some "delete", some "A/g1", none⟩]
          ⟨[["A", "B", "f1"], ["A", "g1"]], [["A"], ["A", "B"]]⟩).2 := by
  decide

/-- C3: the claim promises exactly one per-action result for every action
in the log, and the docstring of `execute_actions_file` lists `move` and
`rename` as supported; but both branches are `pass` (their bodies are
commented out), so a log of a `move` and a `rename` action yields an empty
results list and no filesystem effect at all. -/
theorem C3_move_rename_produce_no_result :
    (execActionsList false
        [⟨some "move", some "a/x.mkv", none⟩, ⟨some "rename", some "a/y", none⟩]
        ⟨[["a", "x.mkv"]], [["a"]]⟩).1 = []
    ∧ (execActionsList false
        [⟨some "move", some "a/x.mkv", none⟩, ⟨some "rename", some "a/y", none⟩]
        ⟨[["a", "x.mkv"]], [["a"]]⟩).2 = ⟨[["a", "x.mkv"]], [["a"]]⟩ := by
  decide

/-- C9: deleting a directory removes exactly the files directly inside it
(files in nested subdirectories survive), then attempts to remove the
directory itself, and the recorded result has status `ok` whether or not
that directory removal succeeded. -/
theorem C9_delete_directory (fs : FS) (fl : List FPath) (s : String)
    (hne : s ≠ "") (hd : toFPath s ∈ fs.dirs) (hf : toFPath s ∉ fs.files) :
    (execAction false fs fl ⟨some "delete", some s, none⟩).1
        = [⟨some "delete", some s, "ok", none⟩]
    ∧ (execAction false fs fl ⟨some "delete", some s, none⟩).2.1.files
        = fs.files.filter (fun f => parentP f ≠ toFPath s)
    ∧ (∀ f ∈ fs.files, parentP f ≠ toFPath s →
        f ∈ (execAction false fs fl ⟨some "delete", some s, none⟩).2.1.files)
    ∧ (execAction false fs fl ⟨some "delete", some s, none⟩).2.1.dirs
        = if noKid ⟨fs.files.filter (fun f => parentP f ≠ toFPath s), fs.dirs⟩ (toFPath s)
          then fs.dirs.filter (· ≠ toFPath s) else fs.dirs := by
  have hsrc : effSrc ⟨some "delete", some s, none⟩ = some s := by
    simp [effSrc, truthy, hne]
  have hstep : execAction false fs fl ⟨some "delete", some s, none⟩
      = ([⟨some "delete", some s, "ok", none⟩], deleteAt fs (toFPath s),
          addIfAbsent fl (parentP (toFPath s))) := by
    simp [execAction, hsrc]
  rw [hstep]
  have hfiles : (deleteAt fs (toFPath s)).files
      = fs.files.filter (fun f => parentP f ≠ toFPath s) := by
    unfold deleteAt
    simp only [hf, hd, if_false, if_true]
    split_ifs <;> rfl
  refine ⟨rfl, hfiles, ?_, ?_⟩
  · intro f hfm hpar
    rw [hfiles]
    exact List.mem_filter.mpr ⟨hfm, decide_eq_true hpar⟩
  · unfold deleteAt
    simp only [hf, hd, if_false, if_true]
    split_ifs <;> rfl

/-- C9 witness: deleting directory `d`, which holds the file `d/a` and the
subdirectory `d/s` with nested file `d/s/b`: the direct file `d/a` goes,
the nested file `d/s/b` survives, the `rmdir` of `d` fails (it still holds
`d/s`), and the result status is still `ok`. -/
theorem C9_witness :
    (execAction false ⟨[["d", "a"], ["d", "s", "b"]], [["d"], ["d", "s"]]⟩ []
        ⟨some "delete", some "d", none⟩).1
        = [⟨some "delete", some "d", "ok", none⟩]
    ∧ (execAction false ⟨[["d", "a"], ["d", "s", "b"]], [["d"], ["d", "s"]]⟩ []
        ⟨some "delete", some "d", none⟩).2.1.files
        = [["d", "a"], ["d", "s", "b"]].filter (fun f => parentP f ≠ toFPath "d") := by
  have h := C9_delete_directory ⟨[["d", "a"], ["d", "s", "b"]], [["d"], ["d", "s"]]⟩ []
    "d" (by decide) (by decide) (by decide)
  exact ⟨h.1, h.2.1⟩

/-- C10 counterexample: a delete action that *does* carry the `source` key,
with the empty string as its value, still produces the missing-field error
result — refuting "only an action with neither key produces the
missing-field error result". -/
theorem C10_counterexample :
    (⟨some "delete", some "", none⟩ : ActionObj).source ≠ none
    ∧ (execActionsList false [⟨some "delete", some "", none⟩] ⟨[], []⟩).1
        = [⟨some "delete", none, "error", some "delete action requires source"⟩] := by
  decide

/-- C10 (amended): the executor's delete accepts its source under `source`
or, as a fallback, under `path` — a delete carrying the path only under
`path` is executed identically to one carrying it under `source` — and the
missing-field error result occurs exactly when both keys are absent or
hold falsy (empty) values. -/
theorem C10_source_path_fallback (dry : Bool) (fs : FS) (fl : List FPath)
    (s : String) (hs : s ≠ "") (a : ActionObj) (ha : a.action = some "delete") :
    execAction dry fs fl ⟨some "delete", none, some s⟩
      = execAction dry fs fl ⟨some "delete", some s, none⟩
    ∧ ((execAction dry fs fl a).1
        = [⟨some "delete", none, "error", some "delete action requires source"⟩]
      ↔ truthy a.source = none ∧ truthy a.path = none) := by
  constructor
  · have h1 : effSrc ⟨some "delete", none, some s⟩ = some s := by
      simp [effSrc, truthy, hs]
    have h2 : effSrc ⟨some "delete", some s, none⟩ = some s := by
      simp [effSrc, truthy, hs]
    simp [execAction, h1, h2]
  · rw [← effSrc_none_iff]
    constructor
    · intro h
      cases hsrc : effSrc a with
      | none => rfl
      | some t =>
        rw [execAction_results] at h
        simp [resOf, ha, hsrc] at h
    · intro h
      rw [execAction_results]
      simp [resOf, ha, h]

/-- C10 witness: a concrete instantiation — a delete carrying only `path`
behaves like one carrying only `source`, and a delete with both keys
absent is exactly the error case. -/
theorem C10_witness :
    execAction false ⟨[["A", "f"]], [["A"]]⟩ [] ⟨some "delete", none, some "A/f"⟩
      = execAction false ⟨[["A", "f"]], [["A"]]⟩ [] ⟨some "delete", some "A/f", none⟩
    ∧ ((execAction false ⟨[["A", "f"]], [["A"]]⟩ [] ⟨some "delete", none, none⟩).1
        = [⟨some "delete", none, "error", some "delete action requires source"⟩]
      ↔ truthy (none : Option String) = none ∧ truthy (none : Option String) = none) :=
  C10_source_path_fallback false ⟨[["A", "f"]], [["A"]]⟩ [] "A/f" (by decide)
    ⟨some "delete", none, none⟩ rfl

/-! ### Quality comparison and import (C4, C8) -/

theorem compare_quality_isBetter (n : String) (ns : Nat) (e : String) (es : Nat) :
    (compare_quality n ns e es).1
      = decide ((compare_quality n ns e es).2.1 > (compare_quality n ns e es).2.2.1) := by
  by_cases h : (extract_quality_info n).1 = (extract_quality_info e).1 ∧ 10 * ns > 11 * es
  · simp [compare_quality, h]
  · simp [compare_quality, h]

/-- C4 counterexample: with two names of equal quality score and the
*existing* file more than 10% larger than the new one, the claim says the
larger of the two files — here the existing one — receives the +50 bonus;
the code applies no bonus at all: both returned scores equal the plain
scores. -/
theorem C4_counterexample :
    (extract_quality_info "A.mkv").1 = (extract_quality_info "B.mkv").1
    ∧ 10 * 1000 > 11 * 100
    ∧ (compare_quality "A.mkv" 100 "B.mkv" 1000).2.1
        = (extract_quality_info "A.mkv").1
    ∧ (compare_quality "A.mkv" 100 "B.mkv" 1000).2.2.1
        = (extract_quality_info "B.mkv").1 := by
  decide

/-- C4 (amended): the +50 tie-break bonus is applied iff the two quality
scores are exactly equal and the *new* file's size exceeds the existing
file's by more than 10% — only the new file can receive it; the existing
score is always returned unbonused; the bonus is applied exactly once
(the comparison is recomputed fresh from the two inputs each call); and
the Boolean verdict is exactly "bonused new score strictly greater". -/
theorem C4_tiebreak_new_only (n : String) (ns : Nat) (e : String) (es : Nat) :
    (compare_quality n ns e es).2.1
      = (extract_quality_info n).1 +
        (if (extract_quality_info n).1 = (extract_quality_info e).1 ∧ 10 * ns > 11 * es
          then 50 else 0)
    ∧ (compare_quality n ns e es).2.2.1 = (extract_quality_info e).1
    ∧ ((compare_quality n ns e es).2.1 ≠ (extract_quality_info n).1
        ↔ ((extract_quality_info n).1 = (extract_quality_info e).1 ∧ 10 * ns > 11 * es))
    ∧ (compare_quality n ns e es).1
        = decide ((compare_quality n ns e es).2.1 > (compare_quality n ns e es).2.2.1) := by
  refine ⟨?_, ?_, ?_, compare_quality_isBetter n ns e es⟩
  · by_cases h : (extract_quality_info n).1 = (extract_quality_info e).1 ∧ 10 * ns > 11 * es
    · simp [compare_quality, h]
    · simp [compare_quality, h]
  · by_cases h : (extract_quality_info n).1 = (extract_quality_info e).1 ∧ 10 * ns > 11 * es
    · simp [compare_quality, h]
    · simp [compare_quality, h]
  · by_cases h : (extract_quality_info n).1 = (extract_quality_info e).1 ∧ 10 * ns > 11 * es
    · simp [compare_quality, h]
    · simp [compare_quality, h]

/-- C8: import-mode replacement is strict and policy-gated. When the exact
filename exists in the destination tree: with the replace policy on, the
live outcome is `replaced` iff the new file's score (after the tie-break
bonus) strictly exceeds the existing file's score; an equal-or-lower score
leaves the library untouched and reports `skipped`; with the policy off,
the outcome is unconditionally `skipped` with the library untouched. -/
theorem C8_replace_policy (lib : List LFile) (src : String) (ssz : Nat)
    (fname base : String) (ex : LFile)
    (hex : check_file_exists_in_tree lib fname = some ex) :
    ((copy_movie src ssz fname base false true lib).1 = "replaced"
      ↔ (compare_quality src ssz ex.path ex.size).2.1
          > (compare_quality src ssz ex.path ex.size).2.2.1)
    ∧ (¬ (compare_quality src ssz ex.path ex.size).2.1
          > (compare_quality src ssz ex.path ex.size).2.2.1 →
        copy_movie src ssz fname base false true lib = ("skipped", lib))
    ∧ copy_movie src ssz fname base false false lib = ("skipped", lib) := by
  have hb := compare_quality_isBetter src ssz ex.path ex.size
  refine ⟨?_, ?_, ?_⟩
  · unfold copy_movie
    rw [hex]
    by_cases h : (compare_quality src ssz ex.path ex.size).2.1
        > (compare_quality src ssz ex.path ex.size).2.2.1
    · simp [hb, h]
    · simp [hb, h]
  · intro h
    unfold copy_movie
    rw [hex]
    simp [hb, h]
  · unfold copy_movie
    rw [hex]
    simp

/-- C8 witness: a 1080p incoming file strictly beats an existing 720p file
with the same basename, so with the policy on it is replaced; and with the
policy off the outcome is a skip. -/
theorem C8_witness :
    ((copy_movie "New.1080p.mkv" 500 "x.mkv" "M" false true
        [⟨"M/Old.720p.mkv", "x.mkv", 700⟩]).1 = "replaced"
      ↔ (compare_quality "New.1080p.mkv" 500 "M/Old.720p.mkv" 700).2.1
          > (compare_quality "New.1080p.mkv" 500 "M/Old.720p.mkv" 700).2.2.1)
    ∧ copy_movie "New.1080p.mkv" 500 "x.mkv" "M" false false
        [⟨"M/Old.720p.mkv", "x.mkv", 700⟩] = ("skipped", [⟨"M/Old.720p.mkv", "x.mkv", 700⟩]) := by
  have h := C8_replace_policy [⟨"M/Old.720p.mkv", "x.mkv", 700⟩] "New.1080p.mkv" 500
    "x.mkv" "M" ⟨"M/Old.720p.mkv", "x.mkv", 700⟩ (by decide)
  exact ⟨h.1, h.2.2⟩

/-! ### TV detection vs extraction (C5) -/

theorem existsAt_of_suffix {chk : List Char → Bool} {t l : List Char}
    (hnil : chk [] = false) (hs : t <:+ l) (h : chk t = true) :
    existsAt chk l = true := by
  induction l with
  | nil =>
    rw [List.suffix_nil.mp hs] at h
    rw [hnil] at h
    exact absurd h (by simp)
  | cons c r ih =>
    rcases List.suffix_cons_iff.mp hs with rfl | hs'
    · simp [existsAt, h]
    · simp [existsAt, ih hs']

theorem scanPre_marker {α : Type} {marker : List Char → Option α} :
    ∀ {pre l : List Char} {p : List Char} {n : α},
      scanPre marker pre l = some (p, n) → ∃ t, t <:+ l ∧ marker t = some n := by
  intro pre l
  induction l generalizing pre with
  | nil => intro p n h; exact absurd h (by simp [scanPre])
  | cons c rest ih =>
    intro p n h
    unfold scanPre at h
    split_ifs at h
    · obtain ⟨t, ht, hm⟩ := ih h
      exact ⟨t, ht.trans (List.suffix_cons c rest), hm⟩
    · cases hm : marker rest with
      | some m =>
        rw [hm] at h
        obtain ⟨-, hn⟩ := Prod.mk.injEq .. ▸ Option.some.injEq .. ▸ h
        exact ⟨rest, List.suffix_cons c rest, by rw [hm, hn]⟩
      | none =>
        rw [hm] at h
        obtain ⟨t, ht, hmm⟩ := ih h
        exact ⟨t, ht.trans (List.suffix_cons c rest), hmm⟩

theorem sepMarkerS_checkSE {l : List Char} {n : Nat} (h : sepMarkerS l = some n) :
    checkSE (l.dropWhile isSepC) = true := by
  unfold sepMarkerS at h
  rcases l with _ | ⟨c, r⟩
  · exact absurd h (by simp)
  · dsimp only at h
    split_ifs at h
    cases hd : (c :: r).dropWhile isSepC with
    | nil => rw [hd] at h; exact absurd h (by simp)
    | cons s r2 =>
      rw [hd] at h
      dsimp only at h
      split_ifs at h with hS
      · simp [checkSE, hS, h]

theorem sepMarkerX_checkX {l : List Char} {n : Nat} (h : sepMarkerX l = some n) :
    checkX (l.dropWhile isSepC) = true := by
  unfold sepMarkerX at h
  rcases l with _ | ⟨c, r⟩
  · exact absurd h (by simp)
  · dsimp only at h
    split_ifs at h
    simp [checkX, h]

/-- C5 (amended): extraction success implies detection — whenever
`extract_tv_show_info` returns a (show, season) pair, `is_tv_show` is true
of the same filename. The converse direction of the claim fails: detection
does not guarantee extraction (see the counterexample). -/
theorem C5_extract_implies_detect (filename : String) (info : String × Nat)
    (h : extract_tv_show_info filename = some info) :
    is_tv_show filename = true := by
  unfold extract_tv_show_info at h
  unfold is_tv_show
  cases hS : scanPre sepMarkerS [] filename.data with
  | some pn =>
    obtain ⟨t, ht, hm⟩ := scanPre_marker hS
    have hc := sepMarkerS_checkSE hm
    have : existsAt checkSE filename.data = true :=
      existsAt_of_suffix rfl ((List.dropWhile_suffix isSepC).trans ht) hc
    simp [this]
  | none =>
    rw [hS] at h
    cases hX : scanPre sepMarkerX [] filename.data with
    | some pn =>
      obtain ⟨t, ht, hm⟩ := scanPre_marker hX
      have hc := sepMarkerX_checkX hm
      have : existsAt checkX filename.data = true :=
        existsAt_of_suffix rfl ((List.dropWhile_suffix isSepC).trans ht) hc
      simp [this]
    | none => rw [hX] at h; exact absurd h (by simp)

/-- C5 witness: a well-formed episode name is both extracted and
detected. -/
theorem C5_witness : is_tv_show "Show.Name.S02E05.1080p.mkv" = true :=
  C5_extract_implies_detect "Show.Name.S02E05.1080p.mkv" ("Show Name", 2) (by decide)

/-- C5 counterexample: `S01E02.mkv` is detected as a TV show (the episode
marker needs no preceding text), but identity extraction returns null —
its pattern demands a non-empty show-name prefix followed by a `.`/space
separator before the marker. Detection and extraction disagree. -/
theorem C5_counterexample :
    is_tv_show "S01E02.mkv" = true ∧ extract_tv_show_info "S01E02.mkv" = none := by
  decide


/-! ### The planning passes are read-only only under dry-run (C2) -/

/-- C2 counterexample: an invocation of the duplicate handler (resp. the
Radarr renamer) with `dry_run=False` still produces the action list, but
also mutates the filesystem while planning: the duplicate loser `Alien_`
is removed, and `My_Movie` is renamed. The claim's "for every invocation
that produces the action list, no filesystem mutation occurs" is false. -/
theorem C2_counterexample :
    (Cleanup.handle_duplicates false [⟨"Alien", true, 1⟩, ⟨"Alien_", true, 0⟩]).2
      ≠ [⟨"Alien", true, 1⟩, ⟨"Alien_", true, 0⟩]
    ∧ (Cleanup.rename_for_radarr (fun _ => some "2001") false [⟨"My_Movie", true, 3⟩]).2
      ≠ [⟨"My_Movie", true, 3⟩] := by
  decide

/-- C2 (amended): with `dry_run=True` — the planners' default — both
passes are read-only: duplicate handling and Radarr-format renaming
return their action lists and leave the filesystem state exactly as it
was, for every state and every metadata-lookup oracle. -/
theorem C2_dry_run_is_readonly (st : List Cleanup.Entry)
    (lookup : String → Option String) :
    (Cleanup.handle_duplicates true st).2 = st
    ∧ (Cleanup.rename_for_radarr lookup true st).2 = st := by
  constructor
  · have key : ∀ (l : List (String × List Cleanup.FolderRec))
        (acc : List Cleanup.CAction × List Cleanup.Entry),
        (l.foldl (Cleanup.hdStep true) acc).2 = acc.2 := by
      intro l
      induction l with
      | nil => intro acc; rfl
      | cons g t ih =>
        intro acc
        rw [List.foldl_cons, ih]
        unfold Cleanup.hdStep
        cases Cleanup.dupSort g.2 <;> rfl
    exact key _ _
  · have key : ∀ (l : List String)
        (acc : List Cleanup.CAction × List Cleanup.Entry),
        (l.foldl (Cleanup.rnStep lookup true) acc).2 = acc.2 := by
      intro l
      induction l with
      | nil => intro acc; rfl
      | cons nm t ih =>
        intro acc
        rw [List.foldl_cons, ih]
        unfold Cleanup.rnStep
        cases acc.2.find? fun e => e.name == nm with
        | none => rfl
        | some e =>
          dsimp only
          split_ifs <;> try rfl
          all_goals
            cases hy : (match extract_year nm with
              | some y => some y
              | none => lookup (Cleanup.clean_movie_name nm)) with
            | none => rfl
            | some y =>
              dsimp only
              split_ifs <;> first | rfl | simp_all
    exact key _ _

/-! ### Determinism of duplicate resolution (C6) -/

theorem keyLe_antisymm {a b : Bool × ℚ}
    (h1 : Cleanup.keyLe a b) (h2 : Cleanup.keyLe b a) : a = b := by
  unfold Cleanup.keyLe at h1 h2
  rcases h1 with ⟨e1, l1⟩ | ⟨f1, f2⟩
  · rcases h2 with ⟨e2, l2⟩ | ⟨g1, g2⟩
    · exact Prod.ext_iff.mpr ⟨e1, le_antisymm l1 l2⟩
    · simp_all
  · rcases h2 with ⟨e2, l2⟩ | ⟨g1, g2⟩
    · simp_all
    · simp_all

theorem dupOrd_refl (x : Cleanup.FolderRec) : Cleanup.dupOrd x x :=
  Or.inl ⟨rfl, le_refl _⟩

theorem keeperOf_spec {g : List Cleanup.FolderRec} (hne : g ≠ []) :
    ∃ k, Cleanup.keeperOf g = some k ∧ k ∈ g ∧ ∀ x ∈ g, Cleanup.dupOrd k x := by
  have hperm : (Cleanup.dupSort g).Perm g := List.perm_insertionSort Cleanup.dupOrd g
  have hsorted : List.Sorted Cleanup.dupOrd (Cleanup.dupSort g) :=
    List.sorted_insertionSort Cleanup.dupOrd g
  cases hs : Cleanup.dupSort g with
  | nil =>
    rw [hs] at hperm
    exact absurd hperm.nil_eq.symm hne
  | cons k rest =>
    rw [hs] at hperm hsorted
    refine ⟨k, ?_, ?_, ?_⟩
    · unfold Cleanup.keeperOf
      rw [hs]
      rfl
    · exact hperm.mem_iff.mp (List.mem_cons_self k rest)
    · intro x hx
      have hx2 : x ∈ k :: rest := hperm.mem_iff.mpr hx
      rcases List.mem_cons.mp hx2 with rfl | hx3
      · exact dupOrd_refl x
      · exact List.rel_of_sorted_cons hsorted x hx3

/-- C6 (amended): duplicate resolution is deterministic in the group
contents *provided no two candidates tie on the sort key* — for any two
orderings of a group in which the `(has-year, size)` keys are pairwise
distinct, the chosen keeper is the same folder. (With tied keys the
keeper follows scan order; see the counterexample.) -/
theorem C6_keeper_deterministic (g gp : List Cleanup.FolderRec)
    (hperm : gp.Perm g) (hne : g ≠ [])
    (hinj : ∀ a ∈ g, ∀ b ∈ g, Cleanup.dupKey a = Cleanup.dupKey b → a = b) :
    Cleanup.keeperOf gp = Cleanup.keeperOf g := by
  have hnep : gp ≠ [] := by
    intro h
    exact hne (List.Perm.nil_eq (h ▸ hperm)).symm
  obtain ⟨k, hk, hkm, hkmax⟩ := keeperOf_spec hne
  obtain ⟨kp, hkp, hkpm, hkpmax⟩ := keeperOf_spec hnep
  have hkpg : kp ∈ g := hperm.mem_iff.mp hkpm
  have h1 : Cleanup.dupOrd k kp := hkmax kp hkpg
  have h2 : Cleanup.dupOrd kp k := hkpmax k (hperm.mem_iff.mpr hkm)
  have hkeq : kp = k := hinj kp hkpg k hkm (keyLe_antisymm h1 h2)
  rw [hk, hkp, hkeq]

/-- C6 witness: on a two-element group with distinct keys, both orderings
choose the same keeper. -/
theorem C6_witness :
    Cleanup.keeperOf [⟨"B (1998)", some "1998", 3⟩, ⟨"A (1999)", some "1999", 5⟩]
      = Cleanup.keeperOf [⟨"A (1999)", some "1999", 5⟩, ⟨"B (1998)", some "1998", 3⟩] :=
  C6_keeper_deterministic _ _ (by decide) (by decide) (by decide)

/-- C6 counterexample: two folders of the same clean name, both carrying a
year and with *equal* sizes: the keeper is whichever the scan met first
(Python's sort is stable), so the two orderings of the same set of
candidate folders produce different planned deletions — the choice is not
determined by the group's contents alone. -/
theorem C6_counterexample :
    Cleanup.clean_movie_name "Alien_ (1999)" = Cleanup.clean_movie_name "Alien (1999)"
    ∧ (Cleanup.handle_duplicates true
        [⟨"Alien (1999)", true, 7⟩, ⟨"Alien_ (1999)", true, 7⟩]).1
      ≠ (Cleanup.handle_duplicates true
        [⟨"Alien_ (1999)", true, 7⟩, ⟨"Alien (1999)", true, 7⟩]).1 := by
  decide

/-! ### Case-insensitivity of the analyzer's grouping key (C7) -/

theorem toNat_ofNat_valid (n : Nat) (h : n.isValidChar) : (Char.ofNat n).toNat = n := by
  simp only [Char.ofNat, dif_pos h, Char.ofNatAux, Char.toNat]
  rfl

theorem char_toNat_inj {a b : Char} (h : a.toNat = b.toNat) : a = b :=
  Char.eq_of_val_eq (UInt32.ext h)

theorem toNat_toLower (c : Char) :
    c.toLower.toNat = if c.toNat ≥ 65 ∧ c.toNat ≤ 90 then c.toNat + 32 else c.toNat := by
  simp only [Char.toLower]
  split_ifs with h
  · exact toNat_ofNat_valid _ (Or.inl (by omega))
  · rfl

theorem toLower_idem (c : Char) : c.toLower.toLower = c.toLower := by
  apply char_toNat_inj
  rw [toNat_toLower c.toLower, toNat_toLower c]
  split_ifs <;> omega

theorem isSpaceCh_toLower (c : Char) : isSpaceCh c.toLower = isSpaceCh c := by
  unfold isSpaceCh
  rw [toNat_toLower]
  apply decide_eq_decide.mpr
  split_ifs <;> omega

theorem bool_eq_of_iff {a b : Bool} (h : a = true ↔ b = true) : a = b := by
  cases a <;> cases b <;> simp_all

theorem isDigit_iff (c : Char) : c.isDigit = true ↔ 48 ≤ c.toNat ∧ c.toNat ≤ 57 := by
  simp [Char.isDigit]
  exact Iff.rfl

theorem isDigit_toLower (c : Char) : c.toLower.isDigit = c.isDigit := by
  apply bool_eq_of_iff
  rw [isDigit_iff, isDigit_iff, toNat_toLower]
  split_ifs <;> omega

theorem toLower_eq_of_low (d : Char) {c : Char}
    (hd : d.toNat < 65 ∨ (90 < d.toNat ∧ d.toNat < 97) ∨ 122 < d.toNat) :
    c.toLower = d ↔ c = d := by
  constructor
  · intro h
    apply char_toNat_inj
    have h2 := congrArg Char.toNat h
    rw [toNat_toLower] at h2
    split_ifs at h2 <;> omega
  · intro h
    subst h
    apply char_toNat_inj
    rw [toNat_toLower]
    split_ifs <;> omega

theorem isSpaceCh_comp_toLower : isSpaceCh ∘ Char.toLower = isSpaceCh :=
  funext isSpaceCh_toLower

theorem yearTail_toLower (l : List Char) :
    yearTail (l.map Char.toLower) = (yearTail l).map (List.map Char.toLower) := by
  unfold yearTail
  rw [List.dropWhile_map, isSpaceCh_comp_toLower]
  rcases hd : l.dropWhile isSpaceCh with
    _ | ⟨a, _ | ⟨d1, _ | ⟨d2, _ | ⟨d3, _ | ⟨d4, _ | ⟨b, rest2⟩⟩⟩⟩⟩⟩ <;>
    simp only [List.map_nil, List.map_cons]
  pick_goal 7
  · simp only [toLower_eq_of_low '(' (by decide), toLower_eq_of_low ')' (by decide),
      isDigit_toLower]
    split_ifs
    · rw [List.dropWhile_map, isSpaceCh_comp_toLower]
      rfl
    · rfl
  all_goals rfl

theorem yearTail_len {l r : List Char} (h : yearTail l = some r) :
    r.length + 6 ≤ l.length := by
  have hdwl : (l.dropWhile isSpaceCh).length ≤ l.length :=
    (List.dropWhile_suffix isSpaceCh).length_le
  unfold yearTail at h
  rcases hd : l.dropWhile isSpaceCh with
    _ | ⟨a, _ | ⟨d1, _ | ⟨d2, _ | ⟨d3, _ | ⟨d4, _ | ⟨b, rest2⟩⟩⟩⟩⟩⟩ <;>
    rw [hd] at h hdwl <;> dsimp only at h <;>
    first
    | exact Option.noConfusion h
    | skip
  split_ifs at h
  have hr : r = rest2.dropWhile isSpaceCh := (Option.some.injEq .. ▸ h).symm
  have h2 : (rest2.dropWhile isSpaceCh).length ≤ rest2.length :=
    (List.dropWhile_suffix isSpaceCh).length_le
  simp only [List.length_cons] at hdwl
  rw [hr]
  omega

theorem stripYearGo_fuel :
    ∀ (n m : Nat) (l : List Char), l.length ≤ n → l.length ≤ m →
      stripYearGo n l = stripYearGo m l := by
  intro n
  induction n with
  | zero =>
    intro m l hn _
    have : l = [] := List.length_eq_zero.mp (Nat.le_zero.mp hn)
    subst this
    cases m <;> rfl
  | succ n ih =>
    intro m l hn hm
    cases l with
    | nil => cases m <;> rfl
    | cons c rest =>
      cases m with
      | zero => exact absurd hm (by simp)
      | succ m =>
        show stripYearGo (n + 1) (c :: rest) = stripYearGo (m + 1) (c :: rest)
        unfold stripYearGo
        cases hy : yearTail (c :: rest) with
        | some r =>
          have hlen := yearTail_len hy
          simp only [List.length_cons] at hn hm hlen
          exact ih m r (by omega) (by omega)
        | none =>
          simp only [List.length_cons] at hn hm
          rw [ih m rest (by omega) (by omega)]

theorem stripYearGo_step (n : Nat) (c : Char) (rest : List Char) :
    stripYearGo (n + 1) (c :: rest)
      = match yearTail (c :: rest) with
        | some r => stripYearGo n r
        | none => c :: stripYearGo n rest := rfl

theorem stripYear_cons (c : Char) (rest : List Char) :
    stripYear (c :: rest)
      = match yearTail (c :: rest) with
        | some r => stripYear r
        | none => c :: stripYear rest := by
  cases hy : yearTail (c :: rest) with
  | some r =>
    show stripYearGo (rest.length + 1) (c :: rest) = stripYear r
    rw [stripYearGo_step, hy]
    have hlen := yearTail_len hy
    simp only [List.length_cons] at hlen
    exact stripYearGo_fuel rest.length r.length r (by omega) le_rfl
  | none =>
    show stripYearGo (rest.length + 1) (c :: rest) = c :: stripYear rest
    rw [stripYearGo_step, hy]
    rfl

theorem stripYear_toLower (l : List Char) :
    stripYear (l.map Char.toLower) = (stripYear l).map Char.toLower := by
  have key : ∀ (n : Nat) (l : List Char), l.length ≤ n →
      stripYear (l.map Char.toLower) = (stripYear l).map Char.toLower := by
    intro n
    induction n with
    | zero =>
      intro l hn
      have : l = [] := List.length_eq_zero.mp (Nat.le_zero.mp hn)
      subst this
      rfl
    | succ n ih =>
      intro l hn
      cases l with
      | nil => rfl
      | cons c rest =>
        simp only [List.map_cons]
        rw [stripYear_cons, stripYear_cons]
        have hyt := yearTail_toLower (c :: rest)
        simp only [List.map_cons] at hyt
        cases hy : yearTail (c :: rest) with
        | some r =>
          rw [hy] at hyt
          simp only [Option.map_some'] at hyt
          rw [hyt]
          have hlen := yearTail_len hy
          simp only [List.length_cons] at hn hlen
          exact ih r (by omega)
        | none =>
          rw [hy] at hyt
          simp only [Option.map_none'] at hyt
          rw [hyt]
          simp only [List.length_cons] at hn
          rw [ih rest (by omega)]
          rfl
  exact key l.length l le_rfl

/-- C7 (amended): it is the *analyzer's* `clean_movie_name`
(`movie_analyzer.py`) that is the lowercase, punctuation-stripped,
whitespace-collapsed, year-removed key, and that key is case-insensitive:
lowercasing a folder name never changes it. The duplicate *resolver*
(`handle_duplicates` in `movie_cleanup.py`) uses a different key that
retains punctuation (see the counterexample). -/
theorem C7_analyzer_key_case_insensitive (name : String) :
    Analyzer.clean_movie_name (String.mk (name.data.map Char.toLower))
      = Analyzer.clean_movie_name name := by
  unfold Analyzer.clean_movie_name
  have h1 : (String.mk (name.data.map Char.toLower)).data
      = name.data.map Char.toLower := rfl
  rw [h1, stripYear_toLower, List.map_map,
    show (Char.toLower ∘ Char.toLower) = Char.toLower from funext toLower_idem]

/-- C7 counterexample: the duplicate resolver's grouping key is
`movie_cleanup.clean_movie_name`, which keeps punctuation: `Alien!` and
`Alien` differ only by punctuation yet get different keys, so
`handle_duplicates` puts them in different groups and plans no deletion
at all — grouping is not punctuation-insensitive. -/
theorem C7_counterexample :
    Cleanup.clean_movie_name "Alien!" ≠ Cleanup.clean_movie_name "Alien"
    ∧ (Cleanup.handle_duplicates true [⟨"Alien", true, 5⟩, ⟨"Alien!", true, 3⟩]).1
      = [] := by
  decide
